import Mathlib

/-!
Shallow embedding of the TinyWindow support libraries
(src/rust/telemetry/src/lib.rs, src/rust/exec_adapter_stub/src/lib.rs,
src/rust/encryption_service/src/lib.rs) and proofs about the claimed
properties of their specification.
-/

namespace TinyWindow

/-! ### Substring containment

The spec and the crate tests use Rust's `str::contains` ("message contains
\"empty\"", "output contains operation=..."). We model it as contiguous
substring search over the character list. -/

/-- Does `pat` occur as a contiguous substring of the character list? -/
def containsAux (pat : List Char) : List Char → Bool
  | [] => pat.isEmpty
  | c :: rest => pat.isPrefixOf (c :: rest) || containsAux pat rest

/-- Rust `str::contains`: `pat` occurs as a contiguous substring of `s`. -/
def strContainsSub (s pat : String) : Bool :=
  containsAux pat.toList s.toList

/-! ### Execution adapter (src/rust/exec_adapter_stub/src/lib.rs)

Order payloads are byte vectors; bytes are modelled as natural numbers
(their values never matter, only emptiness). The global
`ORDER_ID_COUNTER: AtomicU64` is the only state; it is threaded
explicitly. `u64` arithmetic wraps, so the counter lives below `2^64`. -/

/-- Order acknowledgment result (lib.rs lines 14-22). -/
structure OrderAck where
  order_id : Nat
  accepted : Bool
  reason : Option String
  deriving DecidableEq, Repr

/-- Execution error types (lib.rs lines 25-33). -/
inductive ExecError where
  | ValidationFailed : String → ExecError
  | ConnectionError : String → ExecError
  | Timeout : ExecError
  deriving DecidableEq, Repr

/-- `2^64`, the modulus of `u64` arithmetic. -/
def U64MOD : Nat := 18446744073709551616

/-- The adapter's global state: the value of `ORDER_ID_COUNTER` (lib.rs line 36). -/
structure AdapterState where
  counter : Nat
  deriving DecidableEq, Repr

/-- Process start: `AtomicU64::new(1)` (lib.rs line 36). -/
def adapterInit : AdapterState := ⟨1⟩

/-- `reset_order_id_counter` (lib.rs lines 39-41): `store(1)`. -/
def reset_order_id_counter (_s : AdapterState) : AdapterState := ⟨1⟩

/-- `next_order_id` (lib.rs lines 44-46): `fetch_add(1)` returns the previous
value; `u64` fetch_add wraps around on overflow. -/
def next_order_id (s : AdapterState) : Nat × AdapterState :=
  (s.counter, ⟨(s.counter + 1) % U64MOD⟩)

/-- `send_order` (lib.rs lines 65-82). The async fn has no suspension point, so
it is modelled as a state-passing function. -/
def send_order (order : List Nat) (s : AdapterState) :
    Except ExecError OrderAck × AdapterState :=
  if order.isEmpty then
    (Except.error (ExecError.ValidationFailed "Order payload cannot be empty"), s)
  else
    let n := next_order_id s
    (Except.ok { order_id := n.1, accepted := true, reason := none }, n.2)

/-- `pre_trade_check` (lib.rs lines 95-103). -/
def pre_trade_check (order : List Nat) : Except ExecError Unit :=
  if order.isEmpty then
    Except.error (ExecError.ValidationFailed "Order payload cannot be empty")
  else
    Except.ok ()

/-- Run a sequence of `send_order` calls, threading the global counter. -/
def sendAll : List (List Nat) → AdapterState → List (Except ExecError OrderAck) × AdapterState
  | [], s => ([], s)
  | p :: ps, s =>
    let r := send_order p s
    let rs := sendAll ps r.2
    (r.1 :: rs.1, rs.2)

/-- The order ids of the accepted acks, in call order. -/
def okIds (rs : List (Except ExecError OrderAck)) : List Nat :=
  rs.filterMap fun r => match r with
    | Except.ok a => some a.order_id
    | Except.error _ => none

/-- `Except.isOk` for the adapter's result types. -/
def isOkE {α : Type} : Except ExecError α → Bool
  | Except.ok _ => true
  | Except.error _ => false

/-! ### Telemetry (src/rust/telemetry/src/lib.rs)

The process-global state consists of the `Once` flag of `init_metrics`, the
`ORDERS_TOTAL` counter and the `LATENCY` histogram. The counter is a
Prometheus `Counter` over `f64` incremented only by `inc()`; we model it by
the number of `inc()` calls (the stored `f64` equals that count exactly while
it is below `2^53`). The histogram's full contents are determined by the list
of observations, kept as `(operation label, observed seconds)` in emission
order; `f64` durations are modelled as exact rationals. -/

/-- Per-character validation used by `record_latency` (lib.rs line 73):
`c.is_alphanumeric() || c == '_' || c == '.'`. Rust's `char::is_alphanumeric`
accepts every Unicode letter or number; this embedding uses its ASCII
fragment `Char.isAlphanum` ([A-Za-z0-9]), which agrees with the Rust
predicate on ASCII characters. Claims about the validator are therefore
stated for ASCII operation strings. -/
def validLabelChar (c : Char) : Bool :=
  c.isAlphanum || c = '_' || c = '.'

/-- The guard of `record_latency` (lib.rs lines 71-74):
`operation.chars().all(validLabelChar)`. Note that `all` on an empty string
is vacuously true. -/
def validOperation (operation : String) : Bool :=
  operation.toList.all validLabelChar

/-- The spec's label grammar (spec section 6): `operation` must match
`[A-Za-z0-9_.]+` — at least one character, all from the class. This is the
spec-side definition, written to compare with `validOperation` above. -/
def specLabelGrammar (operation : String) : Bool :=
  !operation.isEmpty && operation.toList.all validLabelChar

/-- Is every character of the string ASCII? On such strings the embedded
validator coincides with the Rust one. -/
def asciiString (s : String) : Bool :=
  s.toList.all fun c => c.toNat < 128

/-- The telemetry global state. -/
structure TelemetryState where
  initialized : Bool
  ordersTotal : Nat
  observations : List (String × Rat)
  deriving DecidableEq, Repr

/-- Process start: `Once` not yet run, counter at 0, histogram empty. -/
def telemetryInit : TelemetryState := ⟨false, 0, []⟩

/-- `init_metrics` (lib.rs lines 29-39): `Once`-guarded registration of the
two metric families with the registry. Observable effect: from then on the
registry gathers the families. -/
def init_metrics (s : TelemetryState) : TelemetryState :=
  { s with initialized := true }

/-- `emit_metric` (lib.rs lines 52-58): initialize, then increment
`ORDERS_TOTAL` when the name matches; every other name is silently ignored.
The `value` argument is ignored. -/
def emit_metric (name : String) (_value : Rat) (s : TelemetryState) : TelemetryState :=
  let s' := init_metrics s
  if name = "orders_total" then { s' with ordersTotal := s'.ordersTotal + 1 } else s'

/-- `record_latency` (lib.rs lines 69-83): validate the operation label
(before `init_metrics`, returning unchanged on failure), then observe
`duration_us / 1_000_000.0` with label value `operation`. -/
def record_latency (operation : String) (duration_us : Rat) (s : TelemetryState) :
    TelemetryState :=
  if !validOperation operation then s
  else
    let s' := init_metrics s
    { s' with observations := s'.observations ++ [(operation, duration_us / 1000000)] }

/-- Number of observations carrying a given label value: the histogram's
`_count` for that label. -/
def opCount (obs : List (String × Rat)) (op : String) : Nat :=
  (obs.filter fun p => p.1 == op).length

/-- The histogram's `_count` for one label value of the current state. -/
def label_count (s : TelemetryState) (op : String) : Nat :=
  opCount s.observations op

/-- Sum of the observations carrying a given label value: the histogram's
`_sum` for that label. -/
def opSum (obs : List (String × Rat)) (op : String) : Rat :=
  ((obs.filter fun p => p.1 == op).map fun p => p.2).sum

/-- Observations with the given label not exceeding a bucket's upper bound:
the cumulative `_bucket` count. -/
def bucketCount (obs : List (String × Rat)) (op : String) (bound : Rat) : Nat :=
  (obs.filter fun p => p.1 == op && decide (p.2 ≤ bound)).length

/-- Label values in order of first occurrence, without duplicates. The child
order inside the prometheus `HistogramVec` is a hash-map order the crate does
not specify; the claims below use only membership, never position. -/
def firstOcc : List String → List String
  | [] => []
  | x :: xs => x :: (firstOcc xs).filter fun y => !(y == x)

/-- Modelled from the spec: decimal rendering of an `f64` sample value by the
Prometheus text encoder (an external crate, consumed as a black-box
serializer per spec sections 1 and 6). The exact digit strings the encoder
produces are not pinned by the spec and no claim depends on them; this
stand-in renders the exact rational. -/
def ratText (q : Rat) : String :=
  if q.den = 1 then toString q.num
  else toString q.num ++ "/" ++ toString q.den

/-- The `operation="<op>"` label fragment of an exposition line (spec
section 6). -/
def labelFrag (op : String) : String :=
  "operation=\x22" ++ op ++ "\x22"

/-- Modelled from the spec: one `_bucket` line of the text exposition format
(spec sections 4.1 and 6). -/
def bucketLine (obs : List (String × Rat)) (op : String) (bound : Rat)
    (boundText : String) : String :=
  "latency_seconds_bucket\x7b" ++ labelFrag op ++ ",le=\x22" ++ boundText
    ++ "\x22\x7d " ++ toString (bucketCount obs op bound) ++ "\n"

/-- Modelled from the spec: the `+Inf` bucket line (spec section 6); it
counts every observation of the label. -/
def infLine (obs : List (String × Rat)) (op : String) : String :=
  "latency_seconds_bucket\x7b" ++ labelFrag op ++ ",le=\x22+Inf\x22\x7d "
    ++ toString (opCount obs op) ++ "\n"

/-- Modelled from the spec: the `_sum` line (spec section 6). -/
def sumLine (obs : List (String × Rat)) (op : String) : String :=
  "latency_seconds_sum\x7b" ++ labelFrag op ++ "\x7d "
    ++ ratText (opSum obs op) ++ "\n"

/-- Modelled from the spec: the `_count` line (spec section 6). -/
def countLine (obs : List (String × Rat)) (op : String) : String :=
  "latency_seconds_count\x7b" ++ labelFrag op ++ "\x7d "
    ++ toString (opCount obs op) ++ "\n"

/-- Modelled from the spec: the block of exposition lines for one label value
of the `latency_seconds` histogram, with the fixed bucket schedule
`[1e-5, 1e-4, 1e-3, 1e-2, 1e-1]` (lib.rs line 22, spec section 6). -/
def opBlock (obs : List (String × Rat)) (op : String) : String :=
  bucketLine obs op (1 / 100000) "1e-05" ++ bucketLine obs op (1 / 10000) "0.0001"
    ++ bucketLine obs op (1 / 1000) "0.001" ++ bucketLine obs op (1 / 100) "0.01"
    ++ bucketLine obs op (1 / 10) "0.1" ++ infLine obs op ++ sumLine obs op
    ++ countLine obs op

/-- Concatenation of the per-label blocks. -/
def opBlocks (obs : List (String × Rat)) : List String → String
  | [] => ""
  | op :: ops => opBlock obs op ++ opBlocks obs ops

/-- Modelled from the spec: the `latency_seconds` section of the exposition.
A `HistogramVec` with no children gathers no metric, and the encoder emits
nothing for an empty family, so the section is empty until the first
observation. -/
def histText (obs : List (String × Rat)) : String :=
  if obs.isEmpty then ""
  else
    "# HELP latency_seconds Operation latency\n# TYPE latency_seconds histogram\n"
      ++ opBlocks obs (firstOcc (obs.map Prod.fst))

/-- Modelled from the spec: the `orders_total` section of the exposition
(spec section 6). A plain `Counter` always gathers one sample, initially 0. -/
def counterText (n : Nat) : String :=
  "# HELP orders_total Total orders sent\n# TYPE orders_total counter\norders_total "
    ++ toString n ++ "\n"

/-- Modelled from the spec: the full text exposition gathered from the
registry. Before `init_metrics` has run nothing is registered and the output
is empty; afterwards both families are rendered (family order follows the
spec section 6 listing; no claim depends on it). -/
def render (s : TelemetryState) : String :=
  if s.initialized then counterText s.ordersTotal ++ histText s.observations
  else ""

/-- `get_metrics` (lib.rs lines 94-103): initialize, gather the registry and
encode it. Returns the text together with the (possibly just initialized)
state. -/
def get_metrics (s : TelemetryState) : String × TelemetryState :=
  (render (init_metrics s), init_metrics s)

/-- One call of the telemetry public surface, for whole-lifetime claims. -/
inductive TelemetryOp where
  | emit (name : String) (value : Rat)
  | recordLat (operation : String) (duration_us : Rat)
  | readMetrics
  deriving Repr

/-- Apply one telemetry call to the global state. -/
def applyOp (s : TelemetryState) : TelemetryOp → TelemetryState
  | TelemetryOp.emit n v => emit_metric n v s
  | TelemetryOp.recordLat op d => record_latency op d s
  | TelemetryOp.readMetrics => (get_metrics s).2

/-- Apply a whole sequence of telemetry calls. -/
def applyOps (s : TelemetryState) (ops : List TelemetryOp) : TelemetryState :=
  ops.foldl applyOp s

/-! ### Signing primitive (src/rust/encryption_service/src/lib.rs)

The crate composes the external `rand_chacha`, `hmac` and `sha2` crates; the
spec (sections 1 and 6) treats the primitive's internals as an external
collaborator and states only the interface. The ChaCha20 byte stream and the
HMAC-SHA256 function therefore enter the embedding as parameters; the
theorems below hold for every instantiation, in particular for the real
primitives. Bytes are natural numbers. -/

/-- `KEY_SIZE` (lib.rs line 21). -/
def KEY_SIZE : Nat := 32

/-- `keygen` (lib.rs lines 35-40): allocate a `KEY_SIZE`-byte buffer and fill
it from `ChaCha20Rng::seed_from_u64(seed)`. The stream parameter maps a seed
and a byte index to the byte the external rng produces there. -/
def keygen (stream : Nat → Nat → Nat) (seed : Nat) : List Nat :=
  (List.range KEY_SIZE).map (stream seed)

/-- `sign` (lib.rs lines 53-58): HMAC-SHA256 of the payload under the key;
`mac` is the external `Hmac<Sha256>` computation. -/
def sign (mac : List Nat → List Nat → List Nat) (key payload : List Nat) : List Nat :=
  mac key payload

/-- `verify` (lib.rs lines 69-74): recompute the mac over the payload and
compare with `sig`. `Mac::verify_slice` is a constant-time comparison whose
result is equality of the two byte strings. -/
def verify (mac : List Nat → List Nat → List Nat) (key payload sig : List Nat) : Bool :=
  mac key payload == sig

/-! ### Lemmas about substring containment -/

theorem containsAux_nil_pat (l : List Char) : containsAux [] l = true := by
  cases l <;> rfl

theorem isPrefixOf_append (p : List Char) :
    ∀ l r, p.isPrefixOf l = true → p.isPrefixOf (l ++ r) = true := by
  induction p with
  | nil => intro l r _; cases l <;> simp [List.isPrefixOf]
  | cons c p ih =>
    intro l r h
    cases l with
    | nil => simp [List.isPrefixOf] at h
    | cons d l =>
      simp only [List.cons_append, List.isPrefixOf, Bool.and_eq_true] at h ⊢
      exact ⟨h.1, ih l r h.2⟩

theorem isPrefixOf_self_append (p r : List Char) : p.isPrefixOf (p ++ r) = true := by
  induction p with
  | nil => simp [List.isPrefixOf]
  | cons c p ih => simp [List.isPrefixOf, ih]

theorem containsAux_append_right (pat : List Char) :
    ∀ l r, containsAux pat r = true → containsAux pat (l ++ r) = true := by
  intro l r h
  induction l with
  | nil => exact h
  | cons c l ih =>
    simp only [List.cons_append, containsAux, Bool.or_eq_true]
    exact Or.inr ih

theorem containsAux_append_left (pat : List Char) :
    ∀ l r, containsAux pat l = true → containsAux pat (l ++ r) = true := by
  intro l
  induction l with
  | nil =>
    intro r h
    have hpat : pat = [] := by
      cases pat with
      | nil => rfl
      | cons c p => simp [containsAux, List.isEmpty] at h
    subst hpat
    exact containsAux_nil_pat r
  | cons c l ih =>
    intro r h
    simp only [containsAux, Bool.or_eq_true] at h
    simp only [List.cons_append, containsAux, Bool.or_eq_true]
    cases h with
    | inl h => exact Or.inl (isPrefixOf_append _ _ _ h)
    | inr h => exact Or.inr (ih r h)

theorem containsAux_self (pat r : List Char) : containsAux pat (pat ++ r) = true := by
  cases pat with
  | nil => exact containsAux_nil_pat r
  | cons c p =>
    simp only [List.cons_append, containsAux, Bool.or_eq_true]
    exact Or.inl (isPrefixOf_self_append (c :: p) r)

theorem toList_append (s t : String) : (s ++ t).toList = s.toList ++ t.toList := by
  simp [String.toList]

theorem strContains_append_left (x y pat : String)
    (h : strContainsSub x pat = true) : strContainsSub (x ++ y) pat = true := by
  unfold strContainsSub at h ⊢
  rw [toList_append]
  exact containsAux_append_left _ _ _ h

theorem strContains_append_right (x y pat : String)
    (h : strContainsSub y pat = true) : strContainsSub (x ++ y) pat = true := by
  unfold strContainsSub at h ⊢
  rw [toList_append]
  exact containsAux_append_right _ _ _ h

/-! ### Lemmas about the execution adapter -/

theorem send_order_nil (s : AdapterState) :
    send_order [] s
      = (Except.error (ExecError.ValidationFailed "Order payload cannot be empty"), s) := rfl

theorem send_order_cons (b : Nat) (bs : List Nat) (s : AdapterState) :
    send_order (b :: bs) s
      = (Except.ok { order_id := s.counter, accepted := true, reason := none },
         ⟨(s.counter + 1) % U64MOD⟩) := rfl

theorem sendAll_cons (p : List Nat) (ps : List (List Nat)) (s : AdapterState) :
    sendAll (p :: ps) s
      = ((send_order p s).1 :: (sendAll ps (send_order p s).2).1,
         (sendAll ps (send_order p s).2).2) := rfl

theorem okIds_cons_ok (a : OrderAck) (rs : List (Except ExecError OrderAck)) :
    okIds (Except.ok a :: rs) = a.order_id :: okIds rs := rfl

theorem okIds_cons_err (e : ExecError) (rs : List (Except ExecError OrderAck)) :
    okIds (Except.error e :: rs) = okIds rs := rfl

theorem okIds_append (rs ts : List (Except ExecError OrderAck)) :
    okIds (rs ++ ts) = okIds rs ++ okIds ts := by
  simp [okIds]

theorem sendAll_append (xs ys : List (List Nat)) :
    ∀ s, sendAll (xs ++ ys) s
      = ((sendAll xs s).1 ++ (sendAll ys (sendAll xs s).2).1,
         (sendAll ys (sendAll xs s).2).2) := by
  induction xs with
  | nil => intro s; rfl
  | cons x xs ih =>
    intro s
    simp only [List.cons_append, sendAll_cons, ih, List.cons_append]

/-- Main run lemma for the order-id allocator: starting from counter `c`, a
run of sends yields exactly the ids `c, c+1, …` for its successful (nonempty)
calls, as long as the counter does not wrap. -/
theorem sendAll_run (ps : List (List Nat)) :
    ∀ c, c < U64MOD → c + (ps.countP fun p => !p.isEmpty) ≤ U64MOD →
      okIds (sendAll ps ⟨c⟩).1 = List.range' c (ps.countP fun p => !p.isEmpty)
        ∧ (sendAll ps ⟨c⟩).2.counter
            = (c + ps.countP fun p => !p.isEmpty) % U64MOD := by
  induction ps with
  | nil =>
    intro c hc _
    simp [sendAll, okIds, Nat.mod_eq_of_lt hc]
  | cons p ps ih =>
    intro c hc hbound
    cases p with
    | nil =>
      have hcount : (List.countP (fun p => !p.isEmpty) ([] :: ps))
          = ps.countP fun p => !p.isEmpty := by
        simp [List.countP_cons]
      rw [hcount] at hbound ⊢
      have hmain := ih c hc hbound
      simpa [sendAll_cons, send_order_nil, okIds_cons_err] using hmain
    | cons b bs =>
      have hcount : (List.countP (fun p => !p.isEmpty) ((b :: bs) :: ps))
          = (ps.countP fun p => !p.isEmpty) + 1 := by
        simp [List.countP_cons]
      rw [hcount] at hbound ⊢
      rcases Nat.lt_or_ge (c + 1) U64MOD with hlt | hge
      · have hnext : (c + 1) % U64MOD = c + 1 := Nat.mod_eq_of_lt hlt
        have hmain := ih (c + 1) hlt (by omega)
        rw [sendAll_cons, send_order_cons]
        simp only [hnext] at hmain ⊢
        rw [okIds_cons_ok]
        refine ⟨?_, ?_⟩
        · rw [hmain.1, List.range'_succ]
        · rw [hmain.2]
          congr 1
          omega
      · have hceq : c + 1 = U64MOD := by omega
        have hm0 : (ps.countP fun p => !p.isEmpty) = 0 := by omega
        have hwrap : (c + 1) % U64MOD = 0 := by
          rw [hceq, Nat.mod_self]
        have hmain := ih 0 (by rw [U64MOD]; omega) (by omega)
        rw [sendAll_cons, send_order_cons]
        simp only [hwrap] at hmain ⊢
        rw [okIds_cons_ok]
        rw [hm0] at hmain ⊢
        refine ⟨?_, ?_⟩
        · rw [hmain.1]
          simp [List.range'_succ]
        · rw [hmain.2]
          rw [show c + (0 + 1) = U64MOD by omega]
          simp

/-! ### Lemmas about telemetry -/

theorem init_metrics_idem (s : TelemetryState) :
    init_metrics (init_metrics s) = init_metrics s := rfl

theorem emit_metric_other (name : String) (v : Rat) (s : TelemetryState)
    (h : name ≠ "orders_total") : emit_metric name v s = init_metrics s := by
  simp [emit_metric, h]

theorem emit_metric_orders (v : Rat) (s : TelemetryState) :
    emit_metric "orders_total" v s
      = { initialized := true, ordersTotal := s.ordersTotal + 1,
          observations := s.observations } := by
  simp [emit_metric, init_metrics]

theorem record_latency_invalid (op : String) (d : Rat) (s : TelemetryState)
    (h : validOperation op = false) : record_latency op d s = s := by
  simp [record_latency, h]

theorem record_latency_valid (op : String) (d : Rat) (s : TelemetryState)
    (h : validOperation op = true) :
    record_latency op d s
      = { initialized := true, ordersTotal := s.ordersTotal,
          observations := s.observations ++ [(op, d / 1000000)] } := by
  simp [record_latency, h, init_metrics]

theorem get_metrics_state (s : TelemetryState) :
    (get_metrics s).2 = init_metrics s := rfl

theorem get_metrics_text (s : TelemetryState) :
    (get_metrics s).1 = render (init_metrics s) := rfl

theorem mem_firstOcc (op : String) : ∀ l, op ∈ firstOcc l ↔ op ∈ l := by
  intro l
  induction l with
  | nil => simp [firstOcc]
  | cons x xs ih =>
    simp only [firstOcc, List.mem_cons, List.mem_filter, Bool.not_eq_eq_eq_not,
      Bool.not_true, beq_eq_false_iff_ne, ne_eq, ih]
    constructor
    · rintro (h | ⟨h1, _⟩)
      · exact Or.inl h
      · exact Or.inr h1
    · intro h
      by_cases hx : op = x
      · exact Or.inl hx
      · rcases h with h | h
        · exact absurd h hx
        · exact Or.inr ⟨h, hx⟩

theorem opBlock_contains (obs : List (String × Rat)) (op : String) :
    strContainsSub (opBlock obs op) (labelFrag op) = true := by
  unfold opBlock bucketLine strContainsSub
  simp only [toList_append, List.append_assoc]
  exact containsAux_append_right _ _ _ (containsAux_self _ _)

theorem opBlocks_contains (obs : List (String × Rat)) (op : String) :
    ∀ l, op ∈ l → strContainsSub (opBlocks obs l) (labelFrag op) = true := by
  intro l
  induction l with
  | nil => intro h; cases h
  | cons x xs ih =>
    intro hl
    simp only [opBlocks]
    rcases List.mem_cons.mp hl with h | h
    · subst h
      exact strContains_append_left _ _ _ (opBlock_contains obs op)
    · exact strContains_append_right _ _ _ (ih h)

theorem render_contains_label (s : TelemetryState) (op : String)
    (hinit : s.initialized = true)
    (hmem : op ∈ s.observations.map Prod.fst) :
    strContainsSub (render s) (labelFrag op) = true := by
  have hne : s.observations.isEmpty = false := by
    cases hobs : s.observations with
    | nil => rw [hobs] at hmem; simp at hmem
    | cons a l => rfl
  unfold render
  rw [hinit, if_pos rfl]
  apply strContains_append_right
  unfold histText
  rw [hne]
  simp only [Bool.false_eq_true, if_false]
  apply strContains_append_right
  exact opBlocks_contains s.observations op _ ((mem_firstOcc op _).mpr hmem)

theorem label_count_after (op : String) (d : Rat) (s : TelemetryState)
    (h : validOperation op = true) :
    label_count (record_latency op d s) op = label_count s op + 1 := by
  rw [record_latency_valid op d s h]
  simp [label_count, opCount, List.filter_append]

/-- Every observation reaching the histogram carries a validated label:
preserved by each call of the public surface. -/
theorem labelsValid_applyOp (s : TelemetryState) (op : TelemetryOp)
    (h : ∀ p ∈ s.observations, validOperation p.1 = true) :
    ∀ p ∈ (applyOp s op).observations, validOperation p.1 = true := by
  cases op with
  | emit n v =>
    by_cases hn : n = "orders_total"
    · subst hn
      rw [show applyOp s (TelemetryOp.emit "orders_total" v)
            = emit_metric "orders_total" v s from rfl, emit_metric_orders]
      exact h
    · rw [show applyOp s (TelemetryOp.emit n v) = emit_metric n v s from rfl,
        emit_metric_other n v s hn]
      exact h
  | recordLat o d =>
    rcases Bool.eq_false_or_eq_true (validOperation o) with hv | hv
    · rw [show applyOp s (TelemetryOp.recordLat o d) = record_latency o d s from rfl,
        record_latency_valid o d s hv]
      intro p hp
      rcases List.mem_append.mp hp with hp | hp
      · exact h p hp
      · rcases List.mem_singleton.mp hp with rfl
        exact hv
    · rw [show applyOp s (TelemetryOp.recordLat o d) = record_latency o d s from rfl,
        record_latency_invalid o d s hv]
      exact h
  | readMetrics => exact h

theorem labelsValid_applyOps (ops : List TelemetryOp) :
    ∀ s, (∀ p ∈ s.observations, validOperation p.1 = true) →
      ∀ p ∈ (applyOps s ops).observations, validOperation p.1 = true := by
  induction ops with
  | nil => intro s h; exact h
  | cons o ops ih =>
    intro s h
    simp only [applyOps, List.foldl_cons]
    exact ih (applyOp s o) (labelsValid_applyOp s o h)

theorem ordersTotal_le_applyOp (s : TelemetryState) (op : TelemetryOp) :
    s.ordersTotal ≤ (applyOp s op).ordersTotal := by
  cases op with
  | emit n v =>
    by_cases hn : n = "orders_total"
    · subst hn
      rw [show applyOp s (TelemetryOp.emit "orders_total" v)
            = emit_metric "orders_total" v s from rfl, emit_metric_orders]
      exact Nat.le_succ _
    · rw [show applyOp s (TelemetryOp.emit n v) = emit_metric n v s from rfl,
        emit_metric_other n v s hn]
      exact Nat.le_refl _
  | recordLat o d =>
    rcases Bool.eq_false_or_eq_true (validOperation o) with hv | hv
    · rw [show applyOp s (TelemetryOp.recordLat o d) = record_latency o d s from rfl,
        record_latency_valid o d s hv]
    · rw [show applyOp s (TelemetryOp.recordLat o d) = record_latency o d s from rfl,
        record_latency_invalid o d s hv]
  | readMetrics => exact Nat.le_refl _

theorem ordersTotal_le_applyOps (ops : List TelemetryOp) :
    ∀ s, s.ordersTotal ≤ (applyOps s ops).ordersTotal := by
  induction ops with
  | nil => intro s; exact Nat.le_refl _
  | cons o ops ih =>
    intro s
    simp only [applyOps, List.foldl_cons]
    exact Nat.le_trans (ordersTotal_le_applyOp s o) (ih (applyOp s o))

theorem countP_replicate_nonempty (n : Nat) :
    ((List.replicate n ([0] : List Nat)).countP fun p => !p.isEmpty) = n := by
  induction n with
  | zero => rfl
  | succ n ih => simp [List.replicate_succ, List.countP_cons, ih]

/-! ### The claims -/

/-- C2: for every non-empty payload, send_order returns an Ack with
accepted = true and reason = none, and no send_order result is ever an Ack
with accepted = false (rejections are surfaced only as errors). -/
theorem c2_send_order_accepts (p : List Nat) (s : AdapterState) (hp : p ≠ []) :
    (send_order p s).1
      = Except.ok { order_id := s.counter, accepted := true, reason := none }
    ∧ ∀ (q : List Nat) (t : AdapterState) (a : OrderAck),
        (send_order q t).1 = Except.ok a → a.accepted = true ∧ a.reason = none := by
  constructor
  · cases p with
    | nil => exact absurd rfl hp
    | cons b bs => rw [send_order_cons]
  · intro q t a h
    cases q with
    | nil => rw [send_order_nil] at h; cases h
    | cons b bs =>
      rw [send_order_cons] at h
      cases h
      exact ⟨rfl, rfl⟩

/-- Witness for C2 at the concrete payload [42]. -/
theorem c2_send_order_accepts_witness :
    ([42] : List Nat) ≠ []
    ∧ ((send_order [42] adapterInit).1
        = Except.ok { order_id := adapterInit.counter, accepted := true, reason := none }
      ∧ ∀ (q : List Nat) (t : AdapterState) (a : OrderAck),
          (send_order q t).1 = Except.ok a → a.accepted = true ∧ a.reason = none) :=
  ⟨by decide, c2_send_order_accepts [42] adapterInit (by decide)⟩

/-- C3: the empty payload yields ValidationFailed whose message contains
"empty", and this is the only error path: every result is either that exact
error or an accepted Ack; ConnectionError and Timeout are never returned. -/
theorem c3_send_order_error_paths (s : AdapterState) :
    (send_order [] s).1
      = Except.error (ExecError.ValidationFailed "Order payload cannot be empty")
    ∧ strContainsSub "Order payload cannot be empty" "empty" = true
    ∧ (∀ (p : List Nat) (t : AdapterState),
        (send_order p t).1
            = Except.error (ExecError.ValidationFailed "Order payload cannot be empty")
          ∨ (send_order p t).1
            = Except.ok { order_id := t.counter, accepted := true, reason := none })
    ∧ (∀ (p : List Nat) (t : AdapterState),
        (send_order p t).1 ≠ Except.error ExecError.Timeout
        ∧ ∀ m : String,
            (send_order p t).1 ≠ Except.error (ExecError.ConnectionError m)) := by
  refine ⟨rfl, by decide, ?_, ?_⟩
  · intro p t
    cases p with
    | nil => exact Or.inl rfl
    | cons b bs => exact Or.inr rfl
  · intro p t
    cases p with
    | nil => exact ⟨by simp [send_order_nil], fun m => by simp [send_order_nil]⟩
    | cons b bs => exact ⟨by simp [send_order_cons], fun m => by simp [send_order_cons]⟩

/-- C9: send_order succeeds exactly when pre_trade_check does; both reject
precisely the empty payload with the identical ValidationFailed error, and
send_order is pre_trade_check followed by id allocation on the ok path. -/
theorem c9_send_order_refines_pre_trade (p : List Nat) (s : AdapterState) :
    (send_order p s).1
      = (pre_trade_check p).map
          (fun _ => { order_id := s.counter, accepted := true, reason := none })
    ∧ isOkE (send_order p s).1 = isOkE (pre_trade_check p)
    ∧ isOkE (pre_trade_check p) = !p.isEmpty
    ∧ pre_trade_check []
      = Except.error (ExecError.ValidationFailed "Order payload cannot be empty") := by
  refine ⟨?_, ?_, ?_, rfl⟩ <;> (cases p with | nil => rfl | cons b bs => rfl)

/-- C8: the sign/verify round trip succeeds for every seed and payload, and
keygen always returns KEY_SIZE = 32 bytes; the theorem is uniform in the
external ChaCha20 stream and HMAC-SHA256 primitives, and all three embedded
functions are pure, hence deterministic, by construction. -/
theorem c8_sign_verify_roundtrip (stream : Nat → Nat → Nat)
    (mac : List Nat → List Nat → List Nat) (seed : Nat) (payload : List Nat) :
    verify mac (keygen stream seed) payload (sign mac (keygen stream seed) payload) = true
    ∧ (keygen stream seed).length = KEY_SIZE := by
  constructor
  · simp [verify, sign]
  · simp [keygen]

/-- C4 counterexample: within a single reset epoch of 2^64 successful sends
the u64 order-id counter wraps around (fetch_add wraps on overflow), so the
returned ids — 1, 2, …, 2^64-1, 0 — are not strictly increasing. -/
theorem c4_counterexample :
    ¬ (okIds (sendAll (List.replicate U64MOD [0])
          (reset_order_id_counter adapterInit)).1).Pairwise (· < ·) := by
  have hN : U64MOD = (U64MOD - 1) + 1 := by decide
  have hsplit : List.replicate U64MOD ([0] : List Nat)
      = List.replicate (U64MOD - 1) [0] ++ [[0]] := by
    conv_lhs => rw [hN]
    rw [List.replicate_succ']
  have h1 : (1 : Nat) < U64MOD := by rw [U64MOD]; omega
  have hcount : ((List.replicate (U64MOD - 1) ([0] : List Nat)).countP
      fun p => !p.isEmpty) = U64MOD - 1 := countP_replicate_nonempty _
  have hrun := sendAll_run (List.replicate (U64MOD - 1) [0]) 1 h1
    (by rw [hcount]; omega)
  have hids := hrun.1
  rw [hcount] at hids
  have hstate : (sendAll (List.replicate (U64MOD - 1) ([0] : List Nat)) ⟨1⟩).2 = ⟨0⟩ := by
    have h2 := hrun.2
    rw [hcount, show 1 + (U64MOD - 1) = U64MOD by decide, Nat.mod_self] at h2
    cases hs : (sendAll (List.replicate (U64MOD - 1) ([0] : List Nat)) ⟨1⟩).2 with
    | mk c =>
      rw [hs] at h2
      simp only at h2
      rw [h2]
  intro hpw
  rw [show reset_order_id_counter adapterInit = (⟨1⟩ : AdapterState) from rfl,
    hsplit, sendAll_append, okIds_append, hids, hstate] at hpw
  rw [show okIds (sendAll [[0]] (⟨0⟩ : AdapterState)).1 = [0] from rfl] at hpw
  rcases List.pairwise_append.mp hpw with ⟨-, -, hcross⟩
  have h1mem : (1 : Nat) ∈ List.range' 1 (U64MOD - 1) := by
    rw [List.mem_range'_1]
    constructor
    · exact Nat.le_refl 1
    · rw [U64MOD]; omega
  exact absurd (hcross 1 h1mem 0 (List.mem_singleton.mpr rfl)) (by omega)

/-- C4 (amended): within a reset epoch containing fewer than 2^64 successful
sends (the counter is a wrapping u64), the ids of successive successful
send_order calls are exactly 1, 2, 3, … — strictly increasing and unique,
starting at 1 with stride 1 — and in particular the first two accepted
orders after reset_order_id_counter() receive ids 1 and 2. -/
theorem c4_order_ids_monotone (s0 : AdapterState) (ps : List (List Nat))
    (h : (ps.countP fun p => !p.isEmpty) < U64MOD) :
    okIds (sendAll ps (reset_order_id_counter s0)).1
        = List.range' 1 (ps.countP fun p => !p.isEmpty)
    ∧ (okIds (sendAll ps (reset_order_id_counter s0)).1).Pairwise (· < ·)
    ∧ (okIds (sendAll ps (reset_order_id_counter s0)).1).Nodup
    ∧ (2 ≤ (ps.countP fun p => !p.isEmpty) →
        (okIds (sendAll ps (reset_order_id_counter s0)).1).take 2 = [1, 2]) := by
  have h1 : (1 : Nat) < U64MOD := by rw [U64MOD]; omega
  have hrun := sendAll_run ps 1 h1 (by omega)
  have hids := hrun.1
  rw [show reset_order_id_counter s0 = (⟨1⟩ : AdapterState) from rfl]
  refine ⟨hids, ?_, ?_, ?_⟩
  · rw [hids]
    exact List.pairwise_lt_range' 1 _
  · rw [hids]
    exact List.nodup_range' 1 _
  · intro h2
    rw [hids]
    obtain ⟨k, hk⟩ := Nat.exists_eq_add_of_le h2
    rw [hk, show 2 + k = (k + 1) + 1 by omega, List.range'_succ,
      show (1 : Nat) + 1 = 2 from rfl, List.range'_succ]
    rfl

/-- Witness for C4 at two concrete nonempty payloads after a reset. -/
theorem c4_order_ids_monotone_witness :
    (([[65], [66]] : List (List Nat)).countP fun p => !p.isEmpty) < U64MOD
    ∧ (okIds (sendAll [[65], [66]] (reset_order_id_counter adapterInit)).1
          = List.range' 1 (([[65], [66]] : List (List Nat)).countP fun p => !p.isEmpty)
      ∧ (okIds (sendAll [[65], [66]] (reset_order_id_counter adapterInit)).1).Pairwise (· < ·)
      ∧ (okIds (sendAll [[65], [66]] (reset_order_id_counter adapterInit)).1).Nodup
      ∧ (2 ≤ (([[65], [66]] : List (List Nat)).countP fun p => !p.isEmpty) →
          (okIds (sendAll [[65], [66]] (reset_order_id_counter adapterInit)).1).take 2
            = [1, 2])) :=
  ⟨by decide, c4_order_ids_monotone adapterInit [[65], [66]] (by decide)⟩

/-- C1 counterexample: the empty operation fails the spec grammar
[A-Za-z0-9_.]+ yet record_latency records it (chars().all is vacuously true
on ""), and the invalid, dropped operation "# H" still appears verbatim in
the get_metrics() text, inside the "# HELP" comment lines. -/
theorem c1_counterexample :
    specLabelGrammar "" = false
    ∧ (record_latency "" 50 telemetryInit).observations = [("", 50 / 1000000)]
    ∧ validOperation "# H" = false
    ∧ record_latency "# H" 50 telemetryInit = telemetryInit
    ∧ strContainsSub (get_metrics (record_latency "# H" 50 telemetryInit)).1 "# H"
        = true := by
  refine ⟨by decide, ?_, by decide, by decide, by decide⟩
  rw [record_latency_valid "" 50 telemetryInit (by decide)]
  rfl

/-- C1 (amended): for an ASCII operation string, record_latency records the
observation exactly when every character is in [A-Za-z0-9_.] — the Kleene
star of the spec's class, so the empty operation is recorded, not dropped;
an operation failing the check leaves the whole telemetry state unchanged,
and in every execution trace each label value stored in the histogram passes
the check, so an invalid operation never occurs as a label value of the
exposition (it can still occur as other text, e.g. inside # HELP lines).
Rust's char::is_alphanumeric additionally accepts non-ASCII Unicode letters
and digits; this statement is scoped to ASCII operations, where the embedded
validator coincides with the Rust one. -/
theorem c1_record_latency_validation (operation : String) (d : Rat)
    (s : TelemetryState) (_hascii : asciiString operation = true) :
    ((record_latency operation d s).observations
        = s.observations ++ [(operation, d / 1000000)]
      ↔ validOperation operation = true)
    ∧ (validOperation operation = false → record_latency operation d s = s)
    ∧ (∀ ops : List TelemetryOp, ∀ p ∈ (applyOps telemetryInit ops).observations,
        validOperation p.1 = true) := by
  refine ⟨?_, fun hv => record_latency_invalid operation d s hv, ?_⟩
  · constructor
    · intro heq
      rcases Bool.eq_false_or_eq_true (validOperation operation) with hv | hv
      · exact hv
      · rw [record_latency_invalid operation d s hv] at heq
        have hlen := congrArg List.length heq
        rw [List.length_append] at hlen
        simp at hlen
    · intro hv
      rw [record_latency_valid operation d s hv]
  · intro ops p hp
    exact labelsValid_applyOps ops telemetryInit (by intro q hq; cases hq) p hp

/-- Witness for C1 at the concrete ASCII operation "order.gen_1". -/
theorem c1_record_latency_validation_witness :
    asciiString "order.gen_1" = true
    ∧ (((record_latency "order.gen_1" 50 telemetryInit).observations
          = telemetryInit.observations ++ [("order.gen_1", 50 / 1000000)]
        ↔ validOperation "order.gen_1" = true)
      ∧ (validOperation "order.gen_1" = false →
          record_latency "order.gen_1" 50 telemetryInit = telemetryInit)
      ∧ (∀ ops : List TelemetryOp,
          ∀ p ∈ (applyOps telemetryInit ops).observations,
            validOperation p.1 = true)) :=
  ⟨by decide, c1_record_latency_validation "order.gen_1" 50 telemetryInit (by decide)⟩

/-- C5: for every operation matching the spec grammar [A-Za-z0-9_.]+ and
every duration d ≥ 0, after record_latency(op, d) the get_metrics() text
contains operation="<op>", the histogram's _count for that label has grown
by exactly one, and the recorded value is the duration divided by 10^6. -/
theorem c5_record_latency_observe (op : String) (d : Rat) (s : TelemetryState)
    (hop : specLabelGrammar op = true) (_hd : 0 ≤ d) :
    strContainsSub (get_metrics (record_latency op d s)).1 (labelFrag op) = true
    ∧ label_count (record_latency op d s) op = label_count s op + 1
    ∧ (record_latency op d s).observations.getLast? = some (op, d / 1000000) := by
  have hv : validOperation op = true := by
    simp only [specLabelGrammar, Bool.and_eq_true] at hop
    exact hop.2
  have hstate := record_latency_valid op d s hv
  refine ⟨?_, label_count_after op d s hv, ?_⟩
  · rw [get_metrics_text, hstate]
    apply render_contains_label _ _ rfl
    exact List.mem_map.mpr
      ⟨(op, d / 1000000), List.mem_append_right _ (List.mem_singleton.mpr rfl), rfl⟩
  · rw [hstate]
    exact List.getLast?_concat _

/-- Witness for C5 at the concrete operation "test_op" with 50 μs. -/
theorem c5_record_latency_observe_witness :
    specLabelGrammar "test_op" = true
    ∧ (0 : Rat) ≤ 50
    ∧ (strContainsSub (get_metrics (record_latency "test_op" 50 telemetryInit)).1
          (labelFrag "test_op") = true
      ∧ label_count (record_latency "test_op" 50 telemetryInit) "test_op"
          = label_count telemetryInit "test_op" + 1
      ∧ (record_latency "test_op" 50 telemetryInit).observations.getLast?
          = some ("test_op", 50 / 1000000)) :=
  ⟨by decide, by decide,
    c5_record_latency_observe "test_op" 50 telemetryInit (by decide) (by decide)⟩

/-- C6: emit_metric with any name other than "orders_total" changes nothing
observable: the get_metrics() text, the counter, and the histogram contents
are all unchanged. -/
theorem c6_emit_metric_frame (name : String) (v : Rat) (s : TelemetryState)
    (h : name ≠ "orders_total") :
    (get_metrics (emit_metric name v s)).1 = (get_metrics s).1
    ∧ (emit_metric name v s).ordersTotal = s.ordersTotal
    ∧ (emit_metric name v s).observations = s.observations := by
  rw [emit_metric_other name v s h]
  exact ⟨rfl, rfl, rfl⟩

/-- Witness for C6 at the concrete name "latency_seconds". -/
theorem c6_emit_metric_frame_witness :
    "latency_seconds" ≠ "orders_total"
    ∧ ((get_metrics (emit_metric "latency_seconds" 7 telemetryInit)).1
          = (get_metrics telemetryInit).1
      ∧ (emit_metric "latency_seconds" 7 telemetryInit).ordersTotal
          = telemetryInit.ordersTotal
      ∧ (emit_metric "latency_seconds" 7 telemetryInit).observations
          = telemetryInit.observations) :=
  ⟨by decide, c6_emit_metric_frame "latency_seconds" 7 telemetryInit (by decide)⟩

/-- C7: emit_metric("orders_total", v) increments the counter by exactly one
for every value v (the value is ignored), and the counter is non-decreasing
under every sequence of telemetry calls. -/
theorem c7_orders_total_counter (v : Rat) (s : TelemetryState) :
    (emit_metric "orders_total" v s).ordersTotal = s.ordersTotal + 1
    ∧ ∀ (t : TelemetryState) (ops : List TelemetryOp),
        t.ordersTotal ≤ (applyOps t ops).ordersTotal := by
  refine ⟨?_, fun t ops => ordersTotal_le_applyOps ops t⟩
  rw [emit_metric_orders]

/-- C10: get_metrics is a pure read: the counter and the histogram contents
are unchanged (beyond the idempotent one-shot initialization), and two
consecutive calls with no interleaved emission return the same text. -/
theorem c10_get_metrics_pure (s : TelemetryState) :
    (get_metrics s).2.ordersTotal = s.ordersTotal
    ∧ (get_metrics s).2.observations = s.observations
    ∧ (get_metrics ((get_metrics s).2)).1 = (get_metrics s).1 :=
  ⟨rfl, rfl, rfl⟩

end TinyWindow
